import Mathlib

/-!
Verification development for the fuxlsx repository (src/save.rs).

The file shallowly embeds `save_workbook_with_changes` and its two helpers
`write_cell_value` and `write_calamine_data`.  Machine reals (`f64`) are
modelled by `Rat`; the only numeric conversion the code performs on them is
the widening `i64 as f64`, modelled exactly by the `Int → Rat` cast (the
spec documents precision loss beyond 2^53 as an accepted limitation, and no
claim here depends on it).  `usize` indices are modelled by `Nat`, and the
narrowing casts `as u32` / `as u16` by `% 2^32` / `% 2^16`.
-/

/-- Modelled from the spec (§3): `CellCoordinate` lives in `src/workbook.rs`,
which is not part of the provided sources.  "identifies one cell:
`{sheet_name, row, col}`. Equality is structural (all three fields)." -/
structure CellCoordinate where
  sheet_name : String
  row : Nat
  col : Nat
deriving DecidableEq, Repr

/-- Modelled from the spec (§3): `CellValue` lives in `src/workbook.rs`, not in
the provided sources; its constructor names are fixed by the `match` arms of
`write_cell_value` in src/save.rs. -/
inductive CellValue where
  | Empty : CellValue
  | Str : String → CellValue
  | Int : Int → CellValue
  | Float : Rat → CellValue
  | Bool : Bool → CellValue
  | Error : String → CellValue
  | DateTime : Rat → CellValue
deriving DecidableEq, Repr

/-- Modelled from the spec (§3): `Edit` (in the missing `src/workbook.rs`)
carries the new value to write; other metadata is out of scope. -/
structure Edit where
  new_value : CellValue
deriving DecidableEq, Repr

/-- Modelled from the spec (§3, §4.1): `Changeset` (in the missing
`src/workbook.rs`) is a collection of per-cell edits queryable by sheet name. -/
structure Changeset where
  edits : List (CellCoordinate × Edit)
deriving DecidableEq, Repr

/-- Modelled from the spec (§4.1): "returns every entry whose coordinate's
sheet_name matches". -/
def Changeset.edits_for_sheet (cs : Changeset) (s : String) :
    List (CellCoordinate × Edit) :=
  cs.edits.filter (fun q => decide (q.1.sheet_name = s))

/-- The calamine `CellErrorType` enum (external collaborator, out of scope per
spec §1), as matched by `write_calamine_data`. -/
inductive CellErrorType where
  | Div0 | NA | Name | Null | Num | Ref | Value | GettingData
deriving DecidableEq, Repr

/-- The derived `Debug` rendering of calamine's `CellErrorType`, used by
`write_calamine_data` through `format!("{:?}", e)`. -/
def CellErrorType.debugRepr : CellErrorType → String
  | .Div0 => "Div0"
  | .NA => "NA"
  | .Name => "Name"
  | .Null => "Null"
  | .Num => "Num"
  | .Ref => "Ref"
  | .Value => "Value"
  | .GettingData => "GettingData"

/-- The calamine `Data` enum (external collaborator), as matched by
`write_calamine_data`.  The `DateTime` payload is the serial number that
`dt.as_f64()` returns. -/
inductive Data where
  | Empty : Data
  | Str : String → Data
  | Int : Int → Data
  | Float : Rat → Data
  | Bool : Bool → Data
  | Error : CellErrorType → Data
  | DateTime : Rat → Data
  | DateTimeIso : String → Data
  | DurationIso : String → Data
deriving DecidableEq, Repr

/-- A value placed into an output cell by one of rust_xlsxwriter's write calls
(`write_string`, `write_number`, `write_boolean`,
`write_number_with_format`). -/
inductive WrittenValue where
  | wstring : String → WrittenValue
  | wnumber : Rat → WrittenValue
  | wboolean : Bool → WrittenValue
  | wnumberWithFormat : Rat → String → WrittenValue
deriving DecidableEq, Repr

/-- The widening cast `i64 as f64`, in the `Rat` model of `f64`. -/
def intToF64 (n : Int) : Rat := (n : Rat)

/-- src/save.rs lines 87-121: the value that `write_cell_value` writes for each
`CellValue` variant.  Every variant produces a write (in particular `Empty`
writes the empty string). -/
def write_cell_value : CellValue → WrittenValue
  | .Empty => .wstring ""
  | .Str s => .wstring s
  | .Int n => .wnumber (intToF64 n)
  | .Float x => .wnumber x
  | .Bool b => .wboolean b
  | .Error e => .wstring e
  | .DateTime serial => .wnumberWithFormat serial "yyyy-mm-dd hh:mm:ss"

/-- src/save.rs lines 124-165: the value that `write_calamine_data` writes for
each calamine `Data` variant; `none` means no write call is made (the `Empty`
arm). -/
def write_calamine_data : Data → Option WrittenValue
  | .Empty => none
  | .Str s => some (.wstring s)
  | .Int n => some (.wnumber (intToF64 n))
  | .Float x => some (.wnumber x)
  | .Bool b => some (.wboolean b)
  | .Error e => some (.wstring e.debugRepr)
  | .DateTime dt => some (.wnumberWithFormat dt "yyyy-mm-dd hh:mm:ss")
  | .DateTimeIso s => some (.wstring s)
  | .DurationIso s => some (.wstring s)

/-- src/save.rs lines 42-59, body of the per-cell loop: build the coordinate,
test `has_edit` with `any`, fetch the edit with `find`, and choose between
`write_cell_value` and `write_calamine_data`.  `none` means no write call is
made for this cell. -/
def writeDecision (es : List (CellCoordinate × Edit)) (n : String)
    (r c : Nat) (cell : Data) : Option WrittenValue :=
  let coord : CellCoordinate := ⟨n, r, c⟩
  if es.any (fun q => decide (q.1 = coord)) then
    match es.find? (fun q => decide (q.1 = coord)) with
    | some q => some (write_cell_value q.2.new_value)
    | none => none
  else
    write_calamine_data cell

/-- An output worksheet, as the ordered log of write calls made against it;
positions are the `(u32, u16)` pairs passed to rust_xlsxwriter. -/
abbrev Worksheet : Type := List ((Nat × Nat) × WrittenValue)

/-- The content of an output worksheet cell: the last write targeting that
position (later writes to a position overwrite earlier ones). -/
def wsGet (ws : Worksheet) (p : Nat × Nat) : Option WrittenValue :=
  (ws.reverse.find? (fun q => decide (q.1 = p))).map (fun q => q.2)

/-- src/save.rs line 41: the inner `for (col_idx, cell) in row.iter().enumerate()`
loop, with the narrowing casts `row_idx as u32` and `col_idx as u16` of
lines 54 and 58. -/
def rowWrites (es : List (CellCoordinate × Edit)) (n : String) (r : Nat)
    (row : List Data) : Worksheet :=
  row.enum.filterMap (fun q =>
    (writeDecision es n r q.1 q.2).map (fun w => ((r % 2 ^ 32, q.1 % 2 ^ 16), w)))

/-- src/save.rs line 40: the outer `for (row_idx, row) in range.rows().enumerate()`
loop over one sheet's populated range. -/
def sheetWrites (es : List (CellCoordinate × Edit)) (n : String)
    (g : List (List Data)) : Worksheet :=
  g.enum.flatMap (fun q => rowWrites es n q.1 q.2)

/-- src/save.rs lines 25-62: the in-memory output document built by
`save_workbook_with_changes` before the commit protocol — one output worksheet
per source sheet, in source order, each populated from the source range and the
sheet's edits. -/
def buildOutput (wb : List (String × List (List Data))) (cs : Changeset) :
    List (String × Worksheet) :=
  wb.map (fun s => (s.1, sheetWrites (cs.edits_for_sheet s.1) s.1 s.2))

/-- Split a character list at its LAST dot: `some (before, after)` when a dot
exists, `none` otherwise.  Mirrors how Rust's `Path::file_stem` /
`Path::extension` split a file name. -/
def splitLastDot : List Char → Option (List Char × List Char)
  | [] => none
  | c :: rest =>
    match splitLastDot rest with
    | some q => some (c :: q.1, q.2)
    | none => if c = '.' then some ([], rest) else none

/-- Rust `Path::file_stem` on a file name: everything before the last dot,
except that a dot in first position (hidden-file style names such as
`.bashrc`) does not start an extension. -/
def stemChars (l : List Char) : List Char :=
  match splitLastDot l with
  | some q => if q.1 = [] then l else q.1
  | none => l

/-- Rust `Path::with_extension` on a file name (the final path component;
directory components are untouched by `with_extension`, so paths are modelled
by their file names): replace the extension (the part after the last dot, when
the stem is nonempty) with the given one. -/
def withExtension (p : String) (e : String) : String :=
  if e.data = [] then ⟨stemChars p.data⟩
  else ⟨stemChars p.data ++ '.' :: e.data⟩

/-- src/save.rs line 65: `original_path.with_extension("xlsx.bak")`. -/
def backupOf (p : String) : String := withExtension p "xlsx.bak"

/-- src/save.rs line 72: `original_path.with_extension("xlsx.tmp")`. -/
def tempOf (p : String) : String := withExtension p "xlsx.tmp"

/-- Content of a file in the filesystem model: either uninterpreted raw bytes
(`raw`), or the serialized form of an output document produced by
`rust_xlsxwriter::Workbook::save` (`doc`; the serializer is injective on the
documents this program produces, so the document itself stands for its
bytes). -/
inductive FileData where
  | raw : Nat → FileData
  | doc : List (String × Worksheet) → FileData
deriving DecidableEq

/-- The filesystem: a partial map from paths to file contents. -/
def FS : Type := String → Option FileData

/-- Point update of the filesystem (`none` deletes the file). -/
def fsSet (fs : FS) (p : String) (v : Option FileData) : FS :=
  fun q => if q = p then v else fs q

/-- The outcomes of the fallible external calls made by one run of
`save_workbook_with_changes`: whether opening the source parses a workbook
(and which one), whether each sheet's range read and name set succeed, whether
the output engine accepts writes, and whether each filesystem step of the
commit protocol succeeds.  `backupResidue` / `tempResidue` are the contents
(possibly none) that a failed `fs::copy` / failed `Workbook::save` leave at
the backup / temporary path. -/
structure Oracle where
  openResult : Option (List (String × List (List Data)))
  rangeOk : String → Bool
  setNameOk : String → Bool
  writeOk : Bool
  copyOk : Bool
  backupResidue : Option FileData
  tempWriteOk : Bool
  tempResidue : Option FileData
  renameOk : Bool
  removeOk : Bool

/-- The error taxonomy of `save_workbook_with_changes` (spec §7); each variant
corresponds to one `?`-propagated failure site in src/save.rs. -/
inductive SaveErr where
  | sourceOpen : SaveErr
  | sourceRead : String → SaveErr
  | construction : String → SaveErr
  | backup : SaveErr
  | tempWrite : SaveErr
  | commitRename : SaveErr
deriving DecidableEq, Repr

/-- src/save.rs lines 25-62: the per-sheet loop.  For each sheet in order:
`worksheet_range` (may fail: `sourceRead`), `set_name` (may fail:
`construction`), then the cell writes (a rejected write call is a
`construction` failure; with the all-or-nothing write oracle a sheet with at
least one write call fails exactly when `writeOk` is false).  No filesystem
effect occurs in this phase. -/
def constructPhase (o : Oracle) (cs : Changeset) :
    List (String × List (List Data)) → Except SaveErr (List (String × Worksheet))
  | [] => .ok []
  | s :: rest =>
    if o.rangeOk s.1 = false then .error (.sourceRead s.1)
    else if o.setNameOk s.1 = false then .error (.construction s.1)
    else
      let ws := sheetWrites (cs.edits_for_sheet s.1) s.1 s.2
      if o.writeOk = false ∧ ws ≠ [] then .error (.construction s.1)
      else
        match constructPhase o cs rest with
        | .ok rest2 => .ok ((s.1, ws) :: rest2)
        | .error e => .error e

/-- src/save.rs lines 71-83: serialize to the temporary path, atomically rename
it over the destination, then best-effort delete the backup (`let _ =
fs::remove_file`, whose failure is ignored). -/
def commitAfterBackup (o : Oracle) (fs1 : FS) (path : String)
    (outdoc : List (String × Worksheet)) : FS × Except SaveErr Unit :=
  if o.tempWriteOk then
    let fs2 := fsSet fs1 (tempOf path) (some (.doc outdoc))
    if o.renameOk then
      let fs3 := fsSet (fsSet fs2 path (fs2 (tempOf path))) (tempOf path) none
      (if o.removeOk then fsSet fs3 (backupOf path) none else fs3, .ok ())
    else (fs2, .error .commitRename)
  else (fsSet fs1 (tempOf path) o.tempResidue, .error .tempWrite)

/-- src/save.rs lines 10-84: the whole of `save_workbook_with_changes` — open
the source (read-only), build the output document in memory, then run the
commit protocol: copy an existing destination to the backup path, serialize to
the temporary path, rename it over the destination, best-effort delete the
backup.  Returns the final filesystem and the call's result. -/
def save_workbook_with_changes (o : Oracle) (fs : FS) (path : String)
    (cs : Changeset) : FS × Except SaveErr Unit :=
  match o.openResult with
  | none => (fs, .error .sourceOpen)
  | some wb =>
    match constructPhase o cs wb with
    | .error e => (fs, .error e)
    | .ok outdoc =>
      if (fs path).isSome then
        if o.copyOk then
          commitAfterBackup o (fsSet fs (backupOf path) (fs path)) path outdoc
        else (fsSet fs (backupOf path) o.backupResidue, .error .backup)
      else
        commitAfterBackup o fs path outdoc

/-! ### Facts about the path model -/

theorem splitLastDot_eq_none {l : List Char} : splitLastDot l = none ↔ '.' ∉ l := by
  induction l with
  | nil => simp [splitLastDot]
  | cons c rest ih =>
    simp only [splitLastDot]
    cases hs : splitLastDot rest with
    | some q =>
      have hm : '.' ∈ rest := by
        by_contra hc
        rw [← ih] at hc
        simp [hc] at hs
      simp [List.mem_cons, hm]
    | none =>
      have hnm : '.' ∉ rest := ih.mp hs
      by_cases hc : c = '.'
      · simp [hc]
      · simp [hc, List.mem_cons, hnm, Ne.symm hc]

theorem splitLastDot_eq_some {l t e : List Char}
    (h : splitLastDot l = some (t, e)) : l = t ++ '.' :: e ∧ '.' ∉ e := by
  induction l generalizing t e with
  | nil => simp [splitLastDot] at h
  | cons c rest ih =>
    simp only [splitLastDot] at h
    cases hs : splitLastDot rest with
    | some q =>
      rw [hs] at h
      simp only [Option.some.injEq, Prod.mk.injEq] at h
      obtain ⟨ht, he2⟩ := h
      obtain ⟨hr, hne⟩ := ih (t := q.1) (e := q.2) (by rw [hs])
      subst ht he2
      constructor
      · simp [hr]
      · exact hne
    | none =>
      rw [hs] at h
      by_cases hc : c = '.'
      · rw [if_pos hc] at h
        injection h with h1
        injection h1 with ht he2
        subst ht he2
        exact ⟨by simp [hc], splitLastDot_eq_none.mp hs⟩
      · simp [hc] at h

theorem splitLastDot_append {t e : List Char} (he : '.' ∉ e) :
    splitLastDot (t ++ '.' :: e) = some (t, e) := by
  induction t with
  | nil => simp [splitLastDot, splitLastDot_eq_none.mpr he]
  | cons c t ih => simp [splitLastDot, ih]

theorem stemChars_of_none {l : List Char} (hs : splitLastDot l = none) :
    stemChars l = l := by
  simp [stemChars, hs]

theorem stemChars_of_some_nil {l : List Char} {q : List Char × List Char}
    (hs : splitLastDot l = some q) (hq : q.1 = []) : stemChars l = l := by
  simp [stemChars, hs, hq]

theorem stemChars_of_some {l : List Char} {q : List Char × List Char}
    (hs : splitLastDot l = some q) (hq : q.1 ≠ []) : stemChars l = q.1 := by
  simp [stemChars, hs, hq]

theorem withExtension_ne_self (p e : String) (he : '.' ∈ e.data) :
    withExtension p e ≠ p := by
  intro hcontra
  have hne : e.data ≠ [] := by
    intro h0
    rw [h0] at he
    exact List.not_mem_nil _ he
  unfold withExtension at hcontra
  rw [if_neg hne] at hcontra
  have hdata : stemChars p.data ++ '.' :: e.data = p.data := by
    have := congrArg String.data hcontra
    simpa using this
  cases hs : splitLastDot p.data with
  | none =>
    rw [stemChars_of_none hs] at hdata
    have := congrArg List.length hdata
    simp at this
  | some q =>
    by_cases hq : q.1 = []
    · rw [stemChars_of_some_nil hs hq] at hdata
      have := congrArg List.length hdata
      simp at this
    · rw [stemChars_of_some hs hq] at hdata
      obtain ⟨hr, hnot⟩ := splitLastDot_eq_some (t := q.1) (e := q.2) (by rw [hs])
      rw [hr] at hdata
      have h2 : '.' :: e.data = '.' :: q.2 := List.append_cancel_left hdata
      have h3 : e.data = q.2 := by injection h2
      rw [h3] at he
      exact hnot he

theorem backupOf_ne_self (p : String) : backupOf p ≠ p :=
  withExtension_ne_self p "xlsx.bak" (by decide)

theorem tempOf_ne_self (p : String) : tempOf p ≠ p :=
  withExtension_ne_self p "xlsx.tmp" (by decide)

/-! ### Facts about the in-memory merge -/

theorem wsGet_eq_some_of_unique {ws : Worksheet} {p : Nat × Nat}
    {v : WrittenValue} (hmem : (p, v) ∈ ws)
    (huniq : ∀ q ∈ ws, q.1 = p → q = (p, v)) : wsGet ws p = some v := by
  unfold wsGet
  have hex : ∃ x, x ∈ ws.reverse ∧ (fun q => decide (q.1 = p)) x = true :=
    ⟨(p, v), by simp [hmem], by simp⟩
  obtain ⟨q, hq⟩ := Option.isSome_iff_exists.mp (List.find?_isSome.mpr hex)
  have hpq : q.1 = p := by
    have h0 := List.find?_some hq
    simpa using h0
  have hqmem : q ∈ ws := List.mem_reverse.mp (List.mem_of_find?_eq_some hq)
  rw [hq, huniq q hqmem hpq]
  rfl

theorem wsGet_eq_none {ws : Worksheet} {p : Nat × Nat}
    (h : ∀ q ∈ ws, q.1 ≠ p) : wsGet ws p = none := by
  unfold wsGet
  have hnone : ws.reverse.find? (fun q => decide (q.1 = p)) = none :=
    List.find?_eq_none.mpr (fun x hx => by
      simpa using h x (List.mem_reverse.mp hx))
  rw [hnone]
  rfl

theorem mem_sheetWrites {es : List (CellCoordinate × Edit)} {n : String}
    {g : List (List Data)} {x : (Nat × Nat) × WrittenValue} :
    x ∈ sheetWrites es n g ↔
      ∃ r row c cell, g[r]? = some row ∧ row[c]? = some cell ∧
        writeDecision es n r c cell = some x.2 ∧
        x.1 = (r % 2 ^ 32, c % 2 ^ 16) := by
  unfold sheetWrites rowWrites
  rw [List.mem_flatMap]
  constructor
  · rintro ⟨q, hq, hx⟩
    rw [List.mem_filterMap] at hx
    obtain ⟨q2, hq2, hf⟩ := hx
    rw [Option.map_eq_some'] at hf
    obtain ⟨w, hw, hxw⟩ := hf
    subst hxw
    exact ⟨q.1, q.2, q2.1, q2.2, List.mem_enum_iff_getElem?.mp hq,
      List.mem_enum_iff_getElem?.mp hq2, hw, rfl⟩
  · rintro ⟨r, row, c, cell, h1, h2, hw, hp⟩
    obtain ⟨x1, x2⟩ := x
    refine ⟨(r, row), List.mem_enum_iff_getElem?.mpr h1, ?_⟩
    rw [List.mem_filterMap]
    refine ⟨(c, cell), List.mem_enum_iff_getElem?.mpr h2, ?_⟩
    simp only at hw hp
    rw [hw]
    simp [hp]

theorem wsGet_sheetWrites {es : List (CellCoordinate × Edit)} {n : String}
    {g : List (List Data)} {r c : Nat} {row : List Data} {cell : Data}
    (hrows : g.length ≤ 2 ^ 32) (hcols : ∀ rw2 ∈ g, rw2.length ≤ 2 ^ 16)
    (hr : g[r]? = some row) (hc : row[c]? = some cell) :
    wsGet (sheetWrites es n g) (r, c) = writeDecision es n r c cell := by
  have hrlt : r < 2 ^ 32 :=
    Nat.lt_of_lt_of_le (List.getElem?_eq_some_iff.mp hr).1 hrows
  have hclt : c < 2 ^ 16 :=
    Nat.lt_of_lt_of_le (List.getElem?_eq_some_iff.mp hc).1
      (hcols row (List.getElem?_mem hr))
  have hpos : ∀ r2 c2 (row2 : List Data) (cell2 : Data),
      g[r2]? = some row2 → row2[c2]? = some cell2 →
      (r2 % 2 ^ 32, c2 % 2 ^ 16) = (r, c) → r2 = r ∧ c2 = c := by
    intro r2 c2 row2 cell2 h1 h2 hpq
    have hr2 : r2 < 2 ^ 32 :=
      Nat.lt_of_lt_of_le (List.getElem?_eq_some_iff.mp h1).1 hrows
    have hc2 : c2 < 2 ^ 16 :=
      Nat.lt_of_lt_of_le (List.getElem?_eq_some_iff.mp h2).1
        (hcols row2 (List.getElem?_mem h1))
    rw [Nat.mod_eq_of_lt hr2, Nat.mod_eq_of_lt hc2] at hpq
    exact ⟨congrArg Prod.fst hpq, congrArg Prod.snd hpq⟩
  cases hd : writeDecision es n r c cell with
  | some v =>
    apply wsGet_eq_some_of_unique
    · rw [mem_sheetWrites]
      exact ⟨r, row, c, cell, hr, hc, hd, by
        rw [Nat.mod_eq_of_lt hrlt, Nat.mod_eq_of_lt hclt]⟩
    · intro q hq hqp
      rw [mem_sheetWrites] at hq
      obtain ⟨r2, row2, c2, cell2, h1, h2, hw2, hp2⟩ := hq
      obtain ⟨hre, hce⟩ := hpos r2 c2 row2 cell2 h1 h2 (by rw [← hp2, hqp])
      subst hre hce
      rw [hr] at h1
      injection h1 with h1
      subst h1
      rw [hc] at h2
      injection h2 with h2
      subst h2
      rw [hd] at hw2
      injection hw2 with hw2
      rw [Prod.ext_iff]
      exact ⟨hqp, hw2.symm⟩
  | none =>
    apply wsGet_eq_none
    intro q hq hqp
    rw [mem_sheetWrites] at hq
    obtain ⟨r2, row2, c2, cell2, h1, h2, hw2, hp2⟩ := hq
    obtain ⟨hre, hce⟩ := hpos r2 c2 row2 cell2 h1 h2 (by rw [← hp2, hqp])
    subst hre hce
    rw [hr] at h1
    injection h1 with h1
    subst h1
    rw [hc] at h2
    injection h2 with h2
    subst h2
    rw [hd] at hw2
    exact Option.noConfusion hw2

theorem writeDecision_of_edit {cs : Changeset} {n : String} {r c : Nat}
    {cell : Data} {e : Edit} (he : (⟨n, r, c⟩, e) ∈ cs.edits)
    (hu : ∀ e2 : Edit, (⟨n, r, c⟩, e2) ∈ cs.edits → e2 = e) :
    writeDecision (cs.edits_for_sheet n) n r c cell =
      some (write_cell_value e.new_value) := by
  unfold writeDecision
  have hmem : ((⟨n, r, c⟩, e) : CellCoordinate × Edit) ∈ cs.edits_for_sheet n := by
    unfold Changeset.edits_for_sheet
    rw [List.mem_filter]
    exact ⟨he, by simp⟩
  have hany : (cs.edits_for_sheet n).any
      (fun q => decide (q.1 = (⟨n, r, c⟩ : CellCoordinate))) = true := by
    rw [List.any_eq_true]
    exact ⟨_, hmem, by simp⟩
  rw [if_pos hany]
  have hfind : (cs.edits_for_sheet n).find?
      (fun q => decide (q.1 = (⟨n, r, c⟩ : CellCoordinate))) = some (⟨n, r, c⟩, e) := by
    have hsome : ((cs.edits_for_sheet n).find?
        (fun q => decide (q.1 = (⟨n, r, c⟩ : CellCoordinate)))).isSome :=
      List.find?_isSome.mpr ⟨_, hmem, by simp⟩
    obtain ⟨q, hq⟩ := Option.isSome_iff_exists.mp hsome
    have hq1 : q.1 = (⟨n, r, c⟩ : CellCoordinate) := by
      have h0 := List.find?_some hq
      simpa using h0
    have hqmem : q ∈ cs.edits :=
      (List.mem_filter.mp (List.mem_of_find?_eq_some hq)).1
    have hq2 : q.2 = e := hu q.2 (by rw [← hq1]; exact hqmem)
    rw [hq]
    rw [show q = (⟨n, r, c⟩, e) from Prod.ext_iff.mpr ⟨hq1, hq2⟩]
  rw [hfind]

theorem writeDecision_of_no_edit {cs : Changeset} {n : String} {r c : Nat}
    {cell : Data} (hno : ∀ e2 : Edit, (⟨n, r, c⟩, e2) ∉ cs.edits) :
    writeDecision (cs.edits_for_sheet n) n r c cell = write_calamine_data cell := by
  unfold writeDecision
  rw [if_neg ?hcond]
  case hcond =>
    intro hany
    rw [List.any_eq_true] at hany
    obtain ⟨q, hqmem, hq⟩ := hany
    have hq1 : q.1 = (⟨n, r, c⟩ : CellCoordinate) := of_decide_eq_true hq
    have : q ∈ cs.edits := (List.mem_filter.mp hqmem).1
    rw [show q = (⟨n, r, c⟩, q.2) from Prod.ext_iff.mpr ⟨hq1, rfl⟩] at this
    exact hno q.2 this

theorem backupOf_ne_tempOf (p : String) : backupOf p ≠ tempOf p := by
  intro h
  unfold backupOf tempOf withExtension at h
  rw [if_neg (by decide), if_neg (by decide)] at h
  have hdata := congrArg String.data h
  simp only at hdata
  have h2 := List.append_cancel_left hdata
  have h3 : ("xlsx.bak".data : List Char) = "xlsx.tmp".data := by injection h2
  exact absurd h3 (by decide)

/-! ### Claim theorems: the in-memory merge -/

/-- C1: Overlay precedence — for every source cell position (sheet, row, col)
visited during save_workbook_with_changes for which the changeset contains an
edit with an equal CellCoordinate, the value written to the output cell at
that position is the edit's CellValue converted by the conversion table
(write_cell_value), regardless of the source cell's own value. -/
theorem overlay_precedence (wb : List (String × List (List Data)))
    (cs : Changeset) (i : Nat) (n : String) (g : List (List Data))
    (row : List Data) (cell : Data) (r c : Nat) (e : Edit)
    (hi : wb[i]? = some (n, g))
    (hr : g[r]? = some row) (hc : row[c]? = some cell)
    (hrows : g.length ≤ 2 ^ 32) (hcols : ∀ rw2 ∈ g, rw2.length ≤ 2 ^ 16)
    (he : (⟨n, r, c⟩, e) ∈ cs.edits)
    (hu : ∀ e2 : Edit, (⟨n, r, c⟩, e2) ∈ cs.edits → e2 = e) :
    ∃ ws, (buildOutput wb cs)[i]? = some (n, ws) ∧
      wsGet ws (r, c) = some (write_cell_value e.new_value) := by
  refine ⟨sheetWrites (cs.edits_for_sheet n) n g, ?_, ?_⟩
  · unfold buildOutput
    rw [List.getElem?_map, hi]
    rfl
  · rw [wsGet_sheetWrites hrows hcols hr hc, writeDecision_of_edit he hu]

theorem overlay_precedence_witness :
    ∃ ws, (buildOutput [("Sheet1", [[Data.Str "Alice", Data.Int 30]])]
        ⟨[(⟨"Sheet1", 0, 1⟩, ⟨CellValue.Int 31⟩)]⟩)[0]? = some ("Sheet1", ws) ∧
      wsGet ws (0, 1) = some (write_cell_value (CellValue.Int 31)) :=
  overlay_precedence _ _ 0 "Sheet1" _ _ (Data.Int 30) 0 1 ⟨CellValue.Int 31⟩
    rfl rfl rfl (by decide) (by decide) (by decide)
    (by intro e2 h2; simpa using h2)

/-- C2: Pass-through — for every source cell position visited during
save_workbook_with_changes for which the changeset contains no edit with an
equal CellCoordinate, the value written to the output cell at that position is
the source cell's own value converted by the conversion table
(write_calamine_data); in particular an Empty source cell yields no write. -/
theorem pass_through (wb : List (String × List (List Data)))
    (cs : Changeset) (i : Nat) (n : String) (g : List (List Data))
    (row : List Data) (cell : Data) (r c : Nat)
    (hi : wb[i]? = some (n, g))
    (hr : g[r]? = some row) (hc : row[c]? = some cell)
    (hrows : g.length ≤ 2 ^ 32) (hcols : ∀ rw2 ∈ g, rw2.length ≤ 2 ^ 16)
    (hno : ∀ e2 : Edit, (⟨n, r, c⟩, e2) ∉ cs.edits) :
    ∃ ws, (buildOutput wb cs)[i]? = some (n, ws) ∧
      wsGet ws (r, c) = write_calamine_data cell := by
  refine ⟨sheetWrites (cs.edits_for_sheet n) n g, ?_, ?_⟩
  · unfold buildOutput
    rw [List.getElem?_map, hi]
    rfl
  · rw [wsGet_sheetWrites hrows hcols hr hc, writeDecision_of_no_edit hno]

theorem pass_through_witness :
    ∃ ws, (buildOutput [("Sheet1", [[Data.Str "Alice", Data.Int 30]])]
        ⟨[(⟨"Sheet1", 0, 1⟩, ⟨CellValue.Int 31⟩)]⟩)[0]? = some ("Sheet1", ws) ∧
      wsGet ws (0, 0) = write_calamine_data (Data.Str "Alice") :=
  pass_through _ _ 0 "Sheet1" _ _ (Data.Str "Alice") 0 0
    rfl rfl rfl (by decide) (by decide) (by intro e2 h2; simp at h2)

/-- C6: Error-cell conversion — for every source cell holding an error value
with no matching edit, the output cell contains the error's textual
representation written as a text value (write_string of the error's derived
Debug rendering), not as a distinct error type. -/
theorem error_cell_conversion (wb : List (String × List (List Data)))
    (cs : Changeset) (i : Nat) (n : String) (g : List (List Data))
    (row : List Data) (et : CellErrorType) (r c : Nat)
    (hi : wb[i]? = some (n, g))
    (hr : g[r]? = some row) (hc : row[c]? = some (Data.Error et))
    (hrows : g.length ≤ 2 ^ 32) (hcols : ∀ rw2 ∈ g, rw2.length ≤ 2 ^ 16)
    (hno : ∀ e2 : Edit, (⟨n, r, c⟩, e2) ∉ cs.edits) :
    ∃ ws, (buildOutput wb cs)[i]? = some (n, ws) ∧
      wsGet ws (r, c) = some (WrittenValue.wstring et.debugRepr) := by
  refine ⟨sheetWrites (cs.edits_for_sheet n) n g, ?_, ?_⟩
  · unfold buildOutput
    rw [List.getElem?_map, hi]
    rfl
  · rw [wsGet_sheetWrites hrows hcols hr hc, writeDecision_of_no_edit hno]
    rfl

theorem error_cell_conversion_witness :
    ∃ ws, (buildOutput [("Sheet1", [[Data.Error CellErrorType.Div0]])]
        ⟨[]⟩)[0]? = some ("Sheet1", ws) ∧
      wsGet ws (0, 0) = some (WrittenValue.wstring CellErrorType.Div0.debugRepr) :=
  error_cell_conversion _ _ 0 "Sheet1" _ _ CellErrorType.Div0 0 0
    rfl rfl rfl (by decide) (by decide) (by intro e2 h2; simp at h2)

/-- C7: Empty-value asymmetry — a cell whose matching edit's CellValue is
Empty receives an explicit empty text value (a written empty string), while an
empty source cell with no matching edit produces no write at all (its output
position is absent). -/
theorem empty_value_asymmetry (wb : List (String × List (List Data)))
    (cs : Changeset) (i : Nat) (n : String) (g : List (List Data))
    (row row2 : List Data) (cell : Data) (r c r2 c2 : Nat) (e : Edit)
    (hi : wb[i]? = some (n, g))
    (hrows : g.length ≤ 2 ^ 32) (hcols : ∀ rw2 ∈ g, rw2.length ≤ 2 ^ 16)
    (hr : g[r]? = some row) (hc : row[c]? = some cell)
    (he : (⟨n, r, c⟩, e) ∈ cs.edits) (hE : e.new_value = CellValue.Empty)
    (hu : ∀ e2 : Edit, (⟨n, r, c⟩, e2) ∈ cs.edits → e2 = e)
    (hr2 : g[r2]? = some row2) (hc2 : row2[c2]? = some Data.Empty)
    (hno : ∀ e2 : Edit, (⟨n, r2, c2⟩, e2) ∉ cs.edits) :
    ∃ ws, (buildOutput wb cs)[i]? = some (n, ws) ∧
      wsGet ws (r, c) = some (WrittenValue.wstring "") ∧
      wsGet ws (r2, c2) = none := by
  refine ⟨sheetWrites (cs.edits_for_sheet n) n g, ?_, ?_, ?_⟩
  · unfold buildOutput
    rw [List.getElem?_map, hi]
    rfl
  · rw [wsGet_sheetWrites hrows hcols hr hc, writeDecision_of_edit he hu, hE]
    rfl
  · rw [wsGet_sheetWrites hrows hcols hr2 hc2, writeDecision_of_no_edit hno]
    rfl

theorem empty_value_asymmetry_witness :
    ∃ ws, (buildOutput [("Sheet1", [[Data.Str "x", Data.Empty]])]
        ⟨[(⟨"Sheet1", 0, 0⟩, ⟨CellValue.Empty⟩)]⟩)[0]? = some ("Sheet1", ws) ∧
      wsGet ws (0, 0) = some (WrittenValue.wstring "") ∧
      wsGet ws (0, 1) = none :=
  empty_value_asymmetry _ _ 0 "Sheet1" _ _ _ (Data.Str "x") 0 0 0 1
    ⟨CellValue.Empty⟩ rfl (by decide) (by decide) rfl rfl (by decide) rfl
    (by intro e2 h2; simpa using h2) rfl rfl (by intro e2 h2; simp at h2)

/-! ### Claim C10: index narrowing -/

/-- A single source row wider than the u16 column space: 65536 cells holding
`Int 1` followed by one cell — column index 65536 — holding `Int 2`. -/
def wideRow : List Data := List.replicate 65536 (Data.Int 1) ++ [Data.Int 2]

theorem wsGet_append_last {L : Worksheet} {p : Nat × Nat} {v : WrittenValue} :
    wsGet (L ++ [(p, v)]) p = some v := by
  unfold wsGet
  rw [List.reverse_append]
  simp

theorem rowWrites_wideRow :
    rowWrites [] "S" 0 wideRow =
      rowWrites [] "S" 0 (List.replicate 65536 (Data.Int 1)) ++
        [((0, 0), WrittenValue.wnumber (intToF64 2))] := by
  unfold rowWrites wideRow
  rw [List.enum_append, List.length_replicate, List.filterMap_append]
  congr 1

theorem wideRow_wrap :
    wsGet (sheetWrites [] "S" [wideRow]) (0, 0) =
      some (WrittenValue.wnumber (intToF64 2)) := by
  have h1 : sheetWrites [] "S" [wideRow] = rowWrites [] "S" 0 wideRow ++ [] := rfl
  rw [h1, List.append_nil, rowWrites_wideRow, wsGet_append_last]

/-- C10 (implicit): coordinate index narrowing — every output write targets
position (row mod 2^32, col mod 2^16), so cells land at their true position
exactly when the indices are below those bounds; in the wide-row sheet the
true cell at (0,0) holds `Int 1` and column 65536 holds `Int 2`, yet the
output cell at (0,0) ends up as the number 2: the too-wide column wrapped
onto column 0 and silently overwrote it. -/
theorem coordinate_index_narrowing (es : List (CellCoordinate × Edit))
    (n : String) (g : List (List Data)) (x : (Nat × Nat) × WrittenValue)
    (hx : x ∈ sheetWrites es n g) :
    (∃ r row c cell, g[r]? = some row ∧ row[c]? = some cell ∧
        writeDecision es n r c cell = some x.2 ∧
        x.1 = (r % 2 ^ 32, c % 2 ^ 16)) ∧
    wideRow[0]? = some (Data.Int 1) ∧
    wideRow[65536]? = some (Data.Int 2) ∧
    wsGet (sheetWrites [] "S" [wideRow]) (0, 0) =
      some (WrittenValue.wnumber (intToF64 2)) := by
  refine ⟨mem_sheetWrites.mp hx, ?_, ?_, wideRow_wrap⟩
  · unfold wideRow
    rw [List.getElem?_append_left (by rw [List.length_replicate]; norm_num)]
    rw [List.getElem?_replicate_of_lt (by norm_num)]
  · unfold wideRow
    rw [List.getElem?_append_right (by rw [List.length_replicate])]
    rw [List.length_replicate]
    norm_num

theorem coordinate_index_narrowing_witness :
    (∃ r row c cell,
        ([[Data.Int 5]] : List (List Data))[r]? = some row ∧
        row[c]? = some cell ∧
        writeDecision [] "S" r c cell =
          some (((0, 0), WrittenValue.wnumber (intToF64 5)) :
            (Nat × Nat) × WrittenValue).2 ∧
        (((0, 0), WrittenValue.wnumber (intToF64 5)) :
            (Nat × Nat) × WrittenValue).1 = (r % 2 ^ 32, c % 2 ^ 16)) ∧
    wideRow[0]? = some (Data.Int 1) ∧
    wideRow[65536]? = some (Data.Int 2) ∧
    wsGet (sheetWrites [] "S" [wideRow]) (0, 0) =
      some (WrittenValue.wnumber (intToF64 2)) :=
  coordinate_index_narrowing [] "S" [[Data.Int 5]]
    ((0, 0), WrittenValue.wnumber (intToF64 5)) (by decide)

/-! ### Claim C8: out-of-range edits are never matched -/

theorem any_append_cons_of_neg {α : Type} (l1 l2 : List α) (x : α)
    (p : α → Bool) (hx : p x = false) :
    (l1 ++ x :: l2).any p = (l1 ++ l2).any p := by
  simp [hx]

theorem find?_append_cons_of_neg {α : Type} (l1 l2 : List α) (x : α)
    (p : α → Bool) (hx : p x = false) :
    (l1 ++ x :: l2).find? p = (l1 ++ l2).find? p := by
  rw [List.find?_append, List.find?_append,
    List.find?_cons_of_neg _ (by simp [hx])]

theorem writeDecision_middle_irrelevant {l1 l2 : List (CellCoordinate × Edit)}
    {x : CellCoordinate × Edit} {n : String} {r c : Nat} {cell : Data}
    (hx : x.1 ≠ (⟨n, r, c⟩ : CellCoordinate)) :
    writeDecision (l1 ++ x :: l2) n r c cell =
      writeDecision (l1 ++ l2) n r c cell := by
  simp only [writeDecision]
  rw [any_append_cons_of_neg l1 l2 x
      (fun q => decide (q.1 = (⟨n, r, c⟩ : CellCoordinate))) (by simp [hx]),
    find?_append_cons_of_neg l1 l2 x
      (fun q => decide (q.1 = (⟨n, r, c⟩ : CellCoordinate))) (by simp [hx])]

theorem sheetWrites_congr {es1 es2 : List (CellCoordinate × Edit)} {n : String}
    {g : List (List Data)}
    (h : ∀ r c (row : List Data) (cell : Data), g[r]? = some row →
      row[c]? = some cell →
      writeDecision es1 n r c cell = writeDecision es2 n r c cell) :
    sheetWrites es1 n g = sheetWrites es2 n g := by
  unfold sheetWrites
  rw [List.flatMap_def, List.flatMap_def]
  congr 1
  apply List.map_congr_left
  intro q hq
  unfold rowWrites
  apply List.filterMap_congr
  intro q2 hq2
  rw [h q.1 q2.1 q.2 q2.2 (List.mem_enum_iff_getElem?.mp hq)
    (List.mem_enum_iff_getElem?.mp hq2)]

theorem edits_for_sheet_append {l1 l2 : List (CellCoordinate × Edit)}
    {n : String} :
    Changeset.edits_for_sheet ⟨l1 ++ l2⟩ n =
      Changeset.edits_for_sheet ⟨l1⟩ n ++ Changeset.edits_for_sheet ⟨l2⟩ n := by
  unfold Changeset.edits_for_sheet
  simp

theorem edits_for_sheet_middle_other {l1 l2 : List (CellCoordinate × Edit)}
    {x : CellCoordinate × Edit} {n : String} (hx : x.1.sheet_name ≠ n) :
    Changeset.edits_for_sheet ⟨l1 ++ x :: l2⟩ n =
      Changeset.edits_for_sheet ⟨l1⟩ n ++ Changeset.edits_for_sheet ⟨l2⟩ n := by
  unfold Changeset.edits_for_sheet
  simp [List.filter_cons, hx]

theorem edits_for_sheet_middle_same {l1 l2 : List (CellCoordinate × Edit)}
    {x : CellCoordinate × Edit} {n : String} (hx : x.1.sheet_name = n) :
    Changeset.edits_for_sheet ⟨l1 ++ x :: l2⟩ n =
      Changeset.edits_for_sheet ⟨l1⟩ n ++ x :: Changeset.edits_for_sheet ⟨l2⟩ n := by
  unfold Changeset.edits_for_sheet
  simp [List.filter_cons, hx]

theorem constructPhase_congr {o : Oracle} {cs1 cs2 : Changeset}
    {wb : List (String × List (List Data))}
    (h : ∀ s ∈ wb, sheetWrites (cs1.edits_for_sheet s.1) s.1 s.2 =
      sheetWrites (cs2.edits_for_sheet s.1) s.1 s.2) :
    constructPhase o cs1 wb = constructPhase o cs2 wb := by
  induction wb with
  | nil => rfl
  | cons s rest ih =>
    simp only [constructPhase]
    rw [h s (List.mem_cons_self ..),
      ih (fun s2 hs2 => h s2 (List.mem_cons_of_mem _ hs2))]

/-- C8: Out-of-range edit no-op — an edit whose coordinate names a sheet
absent from the source, or a (row, col) beyond the sheet's populated range, is
never matched: the built output document is unchanged by the edit, and a whole
run of save_workbook_with_changes on the same source is unchanged by it (same
result, same final filesystem). -/
theorem out_of_range_edit_noop (wb : List (String × List (List Data)))
    (l1 l2 : List (CellCoordinate × Edit)) (coord : CellCoordinate) (e : Edit)
    (h : ∀ g, (coord.sheet_name, g) ∈ wb → ∀ row, g[coord.row]? = some row →
      row.length ≤ coord.col) :
    buildOutput wb ⟨l1 ++ (coord, e) :: l2⟩ = buildOutput wb ⟨l1 ++ l2⟩ ∧
    ∀ (o : Oracle) (fs : FS) (path : String), o.openResult = some wb →
      save_workbook_with_changes o fs path ⟨l1 ++ (coord, e) :: l2⟩ =
        save_workbook_with_changes o fs path ⟨l1 ++ l2⟩ := by
  have hsheet : ∀ s ∈ wb,
      sheetWrites (Changeset.edits_for_sheet ⟨l1 ++ (coord, e) :: l2⟩ s.1) s.1 s.2 =
        sheetWrites (Changeset.edits_for_sheet ⟨l1 ++ l2⟩ s.1) s.1 s.2 := by
    intro s hs
    by_cases hn : coord.sheet_name = s.1
    · rw [edits_for_sheet_middle_same hn, edits_for_sheet_append]
      apply sheetWrites_congr
      intro r c row cell hr hc
      apply writeDecision_middle_irrelevant
      intro hceq
      have hrow : row.length ≤ coord.col := by
        apply h s.2 _ row
        · rw [show coord.row = r from congrArg CellCoordinate.row hceq]
          exact hr
        · rw [hn]
          exact hs
      have hclt : c < row.length := (List.getElem?_eq_some_iff.mp hc).1
      rw [show coord.col = c from congrArg CellCoordinate.col hceq] at hrow
      omega
    · rw [edits_for_sheet_middle_other hn, edits_for_sheet_append]
  constructor
  · unfold buildOutput
    apply List.map_congr_left
    intro s hs
    rw [hsheet s hs]
  · intro o fs path ho
    simp only [save_workbook_with_changes, ho]
    rw [constructPhase_congr hsheet]

theorem out_of_range_edit_noop_witness :
    buildOutput [("Sheet1", [[Data.Int 1]])]
        ⟨[] ++ (⟨"Sheet1", 5, 5⟩, ⟨CellValue.Int 9⟩) :: []⟩ =
      buildOutput [("Sheet1", [[Data.Int 1]])] ⟨[] ++ []⟩ ∧
    ∀ (o : Oracle) (fs : FS) (path : String),
      o.openResult = some [("Sheet1", [[Data.Int 1]])] →
      save_workbook_with_changes o fs path
          ⟨[] ++ (⟨"Sheet1", 5, 5⟩, ⟨CellValue.Int 9⟩) :: []⟩ =
        save_workbook_with_changes o fs path ⟨[] ++ []⟩ :=
  out_of_range_edit_noop [("Sheet1", [[Data.Int 1]])] [] []
    ⟨"Sheet1", 5, 5⟩ ⟨CellValue.Int 9⟩
    (by intro g hg row hrow; simp at hg; rw [hg] at hrow; simp at hrow)

/-! ### Facts about the commit protocol -/

theorem fsSet_same (fs : FS) (p : String) (v : Option FileData) :
    fsSet fs p v p = v := by
  simp [fsSet]

theorem fsSet_other (fs : FS) (p q : String) (v : Option FileData)
    (h : q ≠ p) : fsSet fs p v q = fs q := by
  simp [fsSet, h]

theorem commitAfterBackup_tempFail {o : Oracle} (fs1 : FS) (path : String)
    (outdoc : List (String × Worksheet)) (h : o.tempWriteOk = false) :
    commitAfterBackup o fs1 path outdoc =
      (fsSet fs1 (tempOf path) o.tempResidue, .error .tempWrite) := by
  unfold commitAfterBackup
  rw [h]
  simp

/-- C9: No side effects before commit — any failure while opening the source,
reading a sheet, or constructing the output document aborts the save with the
filesystem entirely unchanged and an error result (the commit protocol is
never reached). -/
theorem no_side_effects_before_commit (o : Oracle) (fs : FS) (path : String)
    (cs : Changeset)
    (h : o.openResult = none ∨ ∃ wb err, o.openResult = some wb ∧
      constructPhase o cs wb = .error err) :
    (save_workbook_with_changes o fs path cs).1 = fs ∧
    ∃ err, (save_workbook_with_changes o fs path cs).2 = .error err := by
  rcases h with h | ⟨wb, err, ho, hc⟩
  · constructor
    · simp [save_workbook_with_changes, h]
    · exact ⟨.sourceOpen, by simp [save_workbook_with_changes, h]⟩
  · constructor
    · simp [save_workbook_with_changes, ho, hc]
    · exact ⟨err, by simp [save_workbook_with_changes, ho, hc]⟩

theorem no_side_effects_before_commit_witness :
    (save_workbook_with_changes
        ⟨none, fun _ => true, fun _ => true, true, true, none, true, none,
          true, true⟩
        (fun _ => some (FileData.raw 7)) "file.xlsx" ⟨[]⟩).1 =
      (fun _ => some (FileData.raw 7)) ∧
    ∃ err, (save_workbook_with_changes
        ⟨none, fun _ => true, fun _ => true, true, true, none, true, none,
          true, true⟩
        (fun _ => some (FileData.raw 7)) "file.xlsx" ⟨[]⟩).2 = .error err :=
  no_side_effects_before_commit _ _ _ _ (Or.inl rfl)

/-- C3: Atomicity under temp-write failure — if serializing the output
document to the temporary path fails, save_workbook_with_changes returns
failure and the destination path's content is exactly its pre-call content
(only the rename step ever touches the destination). -/
theorem atomicity_under_temp_write_failure (o : Oracle) (fs : FS)
    (path : String) (cs : Changeset) (h : o.tempWriteOk = false) :
    (save_workbook_with_changes o fs path cs).1 path = fs path ∧
    ∃ err, (save_workbook_with_changes o fs path cs).2 = .error err := by
  cases ho : o.openResult with
  | none =>
    refine ⟨?_, .sourceOpen, ?_⟩ <;> simp [save_workbook_with_changes, ho]
  | some wb =>
    cases hc : constructPhase o cs wb with
    | error err =>
      refine ⟨?_, err, ?_⟩ <;> simp [save_workbook_with_changes, ho, hc]
    | ok outdoc =>
      have hbody : save_workbook_with_changes o fs path cs =
          (if (fs path).isSome = true then
            (if o.copyOk = true then
              commitAfterBackup o (fsSet fs (backupOf path) (fs path)) path
                outdoc
             else (fsSet fs (backupOf path) o.backupResidue,
               .error .backup))
          else commitAfterBackup o fs path outdoc) := by
        simp [save_workbook_with_changes, ho, hc]
      rw [hbody]
      by_cases hd : (fs path).isSome = true
      · rw [if_pos hd]
        by_cases hcopy : o.copyOk = true
        · rw [if_pos hcopy, commitAfterBackup_tempFail _ _ _ h]
          refine ⟨?_, .tempWrite, rfl⟩
          show fsSet (fsSet fs (backupOf path) (fs path)) (tempOf path)
            o.tempResidue path = fs path
          rw [fsSet_other _ _ _ _ (Ne.symm (tempOf_ne_self path)),
            fsSet_other _ _ _ _ (Ne.symm (backupOf_ne_self path))]
        · rw [if_neg hcopy]
          refine ⟨?_, .backup, rfl⟩
          show fsSet fs (backupOf path) o.backupResidue path = fs path
          rw [fsSet_other _ _ _ _ (Ne.symm (backupOf_ne_self path))]
      · rw [if_neg hd, commitAfterBackup_tempFail _ _ _ h]
        refine ⟨?_, .tempWrite, rfl⟩
        show fsSet fs (tempOf path) o.tempResidue path = fs path
        rw [fsSet_other _ _ _ _ (Ne.symm (tempOf_ne_self path))]

theorem atomicity_under_temp_write_failure_witness :
    (save_workbook_with_changes
        ⟨some [("Sheet1", [[Data.Int 1]])], fun _ => true, fun _ => true,
          true, true, none, false, some (FileData.raw 3), true, true⟩
        (fun q => if q = "file.xlsx" then some (FileData.raw 0) else none)
        "file.xlsx" ⟨[]⟩).1 "file.xlsx" =
      (fun q => if q = "file.xlsx" then some (FileData.raw 0) else none)
        "file.xlsx" ∧
    ∃ err, (save_workbook_with_changes
        ⟨some [("Sheet1", [[Data.Int 1]])], fun _ => true, fun _ => true,
          true, true, none, false, some (FileData.raw 3), true, true⟩
        (fun q => if q = "file.xlsx" then some (FileData.raw 0) else none)
        "file.xlsx" ⟨[]⟩).2 = .error err :=
  atomicity_under_temp_write_failure _ _ _ _ rfl

/-! ### Claim C4: backup lifecycle -/

/-- C4 (amended): Backup lifecycle — when the destination existed beforehand:
on a successful call in which the final best-effort backup deletion succeeded,
no backup file exists afterwards; on a call that fails after the backup copy
was made but before a successful rename, the backup file exists and holds
exactly the pre-call destination content.  (The original claim asserted the
first part for every successful call; it fails when the best-effort
`fs::remove_file` of the backup fails, which the code deliberately
ignores.) -/
theorem backup_lifecycle (o : Oracle) (fs : FS) (path : String)
    (cs : Changeset) (d : FileData) (hd : fs path = some d) :
    ((save_workbook_with_changes o fs path cs).2 = .ok () →
      o.removeOk = true →
      (save_workbook_with_changes o fs path cs).1 (backupOf path) = none) ∧
    (∀ wb outdoc, o.openResult = some wb →
      constructPhase o cs wb = .ok outdoc → o.copyOk = true →
      (o.tempWriteOk = false ∨ o.renameOk = false) →
      (save_workbook_with_changes o fs path cs).1 (backupOf path) = some d ∧
      ∃ err, (save_workbook_with_changes o fs path cs).2 = .error err) := by
  have hds : (fs path).isSome = true := by rw [hd]; rfl
  constructor
  · intro hok hrm
    cases ho : o.openResult with
    | none => rw [show (save_workbook_with_changes o fs path cs).2 =
        .error .sourceOpen by simp [save_workbook_with_changes, ho]] at hok
              exact absurd hok (by simp)
    | some wb =>
      cases hc : constructPhase o cs wb with
      | error err =>
        rw [show (save_workbook_with_changes o fs path cs).2 = .error err by
          simp [save_workbook_with_changes, ho, hc]] at hok
        exact absurd hok (by simp)
      | ok outdoc =>
        have hbody : save_workbook_with_changes o fs path cs =
            (if o.copyOk = true then
              commitAfterBackup o (fsSet fs (backupOf path) (fs path)) path
                outdoc
             else (fsSet fs (backupOf path) o.backupResidue,
               .error .backup)) := by
          simp [save_workbook_with_changes, ho, hc, hds]
        rw [hbody] at hok ⊢
        by_cases hcopy : o.copyOk = true
        · rw [if_pos hcopy] at hok ⊢
          by_cases ht : o.tempWriteOk = true
          · by_cases hr : o.renameOk = true
            · simp only [commitAfterBackup, if_pos ht, if_pos hr, hrm] at hok ⊢
              simp only [if_true]
              exact fsSet_same _ _ _
            · simp only [commitAfterBackup, if_pos ht, if_neg hr] at hok
              exact absurd hok (by simp)
          · have ht2 : o.tempWriteOk = false := by
              revert ht; cases o.tempWriteOk <;> simp
            rw [commitAfterBackup_tempFail _ _ _ ht2] at hok
            exact absurd hok (by simp)
        · rw [if_neg hcopy] at hok
          exact absurd hok (by simp)
  · intro wb outdoc ho hc hcopy hfail
    have hbody : save_workbook_with_changes o fs path cs =
        commitAfterBackup o (fsSet fs (backupOf path) (fs path)) path
          outdoc := by
      simp [save_workbook_with_changes, ho, hc, hds, hcopy]
    rw [hbody]
    have hbk : fsSet fs (backupOf path) (fs path) (backupOf path) = some d := by
      rw [fsSet_same, hd]
    rcases hfail with ht | hr
    · rw [commitAfterBackup_tempFail _ _ _ ht]
      refine ⟨?_, .tempWrite, rfl⟩
      show fsSet (fsSet fs (backupOf path) (fs path)) (tempOf path)
        o.tempResidue (backupOf path) = some d
      rw [fsSet_other _ _ _ _ (backupOf_ne_tempOf path), hbk]
    · by_cases ht : o.tempWriteOk = true
      · simp only [commitAfterBackup, if_pos ht, if_neg (by simp [hr] :
          ¬o.renameOk = true)]
        refine ⟨?_, .commitRename, rfl⟩
        show fsSet (fsSet fs (backupOf path) (fs path)) (tempOf path)
          (some (.doc outdoc)) (backupOf path) = some d
        rw [fsSet_other _ _ _ _ (backupOf_ne_tempOf path), hbk]
      · have ht2 : o.tempWriteOk = false := by
          revert ht; cases o.tempWriteOk <;> simp
        rw [commitAfterBackup_tempFail _ _ _ ht2]
        refine ⟨?_, .tempWrite, rfl⟩
        show fsSet (fsSet fs (backupOf path) (fs path)) (tempOf path)
          o.tempResidue (backupOf path) = some d
        rw [fsSet_other _ _ _ _ (backupOf_ne_tempOf path), hbk]

theorem backup_lifecycle_witness :
    ((save_workbook_with_changes
        ⟨some [("Sheet1", [[Data.Int 1]])], fun _ => true, fun _ => true,
          true, true, none, true, none, true, true⟩
        (fun q => if q = "file.xlsx" then some (FileData.raw 0) else none)
        "file.xlsx" ⟨[]⟩).2 = .ok () → true = true →
      (save_workbook_with_changes
        ⟨some [("Sheet1", [[Data.Int 1]])], fun _ => true, fun _ => true,
          true, true, none, true, none, true, true⟩
        (fun q => if q = "file.xlsx" then some (FileData.raw 0) else none)
        "file.xlsx" ⟨[]⟩).1 (backupOf "file.xlsx") = none) ∧
    (∀ wb outdoc,
      (⟨some [("Sheet1", [[Data.Int 1]])], fun _ => true, fun _ => true,
          true, true, none, true, none, true, true⟩ : Oracle).openResult =
        some wb →
      constructPhase
          ⟨some [("Sheet1", [[Data.Int 1]])], fun _ => true, fun _ => true,
            true, true, none, true, none, true, true⟩ ⟨[]⟩ wb = .ok outdoc →
      true = true → (true = false ∨ true = false) →
      (save_workbook_with_changes
          ⟨some [("Sheet1", [[Data.Int 1]])], fun _ => true, fun _ => true,
            true, true, none, true, none, true, true⟩
          (fun q => if q = "file.xlsx" then some (FileData.raw 0) else none)
          "file.xlsx" ⟨[]⟩).1 (backupOf "file.xlsx") = some (FileData.raw 0) ∧
      ∃ err, (save_workbook_with_changes
          ⟨some [("Sheet1", [[Data.Int 1]])], fun _ => true, fun _ => true,
            true, true, none, true, none, true, true⟩
          (fun q => if q = "file.xlsx" then some (FileData.raw 0) else none)
          "file.xlsx" ⟨[]⟩).2 = .error err) :=
  backup_lifecycle _ _ "file.xlsx" ⟨[]⟩ (FileData.raw 0) rfl

/-- C4, counterexample to the claim as stated: a run in which the destination
existed beforehand, the save succeeds, and yet a backup file still exists
afterwards — everything succeeded except the ignored best-effort deletion of
the backup (`let _ = fs::remove_file(&backup_path)`). -/
theorem backup_lifecycle_counterexample :
    (fun q => if q = "file.xlsx" then some (FileData.raw 0) else none :
      FS) "file.xlsx" = some (FileData.raw 0) ∧
    (save_workbook_with_changes
        ⟨some [("Sheet1", [[Data.Int 1]])], fun _ => true, fun _ => true,
          true, true, none, true, none, true, false⟩
        (fun q => if q = "file.xlsx" then some (FileData.raw 0) else none)
        "file.xlsx" ⟨[]⟩).2 = .ok () ∧
    (save_workbook_with_changes
        ⟨some [("Sheet1", [[Data.Int 1]])], fun _ => true, fun _ => true,
          true, true, none, true, none, true, false⟩
        (fun q => if q = "file.xlsx" then some (FileData.raw 0) else none)
        "file.xlsx" ⟨[]⟩).1 (backupOf "file.xlsx") = some (FileData.raw 0) :=
  ⟨rfl, rfl, rfl⟩

/-! ### Claim C5: backup path naming -/

/-- C5, counterexample to the claim as stated: the backup path is computed by
`Path::with_extension("xlsx.bak")`, which REPLACES the original extension
rather than appending a suffix.  For the input path `data.ods` the backup is
placed at `data.xlsx.bak`, which does not have the original path as a prefix,
so the backup path is not the original path plus a suffix. -/
theorem backup_path_counterexample :
    backupOf "data.ods" = "data.xlsx.bak" ∧
    (backupOf "data.ods").data.take "data.ods".data.length ≠
      "data.ods".data := by
  exact ⟨by decide, by decide⟩

/-- C5 (amended): Backup path naming — the backup artifact lives at the
original path with its extension replaced by `xlsx.bak` (Rust
`Path::with_extension` semantics).  For original paths with extension `.xlsx`
— the format this tool writes — this coincides with the original path plus a
`.bak` suffix: `backupOf (s ++ ".xlsx") = (s ++ ".xlsx") ++ ".bak"` for every
nonempty stem `s`.  For other extensions (e.g. `.ods`) the extension is
replaced, not suffixed. -/
theorem backup_path_naming (s : String) (h : s.data ≠ []) :
    backupOf (s ++ ".xlsx") = (s ++ ".xlsx") ++ ".bak" := by
  apply String.ext
  have hsplit : splitLastDot (s ++ ".xlsx").data =
      some (s.data, "xlsx".data) := by
    rw [String.data_append]
    rw [show (".xlsx" : String).data = '.' :: "xlsx".data from rfl]
    exact splitLastDot_append (by decide)
  unfold backupOf withExtension
  rw [if_neg (by decide)]
  show stemChars (s ++ ".xlsx").data ++ '.' :: "xlsx.bak".data =
    ((s ++ ".xlsx") ++ ".bak").data
  rw [stemChars_of_some hsplit h, String.data_append, String.data_append,
    List.append_assoc]
  congr 1

theorem backup_path_naming_witness :
    backupOf ("file" ++ ".xlsx") = ("file" ++ ".xlsx") ++ ".bak" :=
  backup_path_naming "file" (by decide)
